import Mathlib

/-!
Verification of an arrow2 columnar-array core fragment.

The Lean definitions below are a shallow embedding of the Rust sources:
`Buffer<T>` becomes `List`, a validity `Bitmap` becomes `List Bool`
(`Option (List Bool)` for "absent means all-valid"), machine integers
become `Nat`/`Int` with explicit wrapping where overflow matters, and
fallible or panicking Rust code returns `Option`/`RunResult`.
-/

/-- Time units, from `datatypes::TimeUnit` (external collaborator of the
analysed fragment; its four variants are fixed by the spec). -/
inductive TimeUnit
  | second
  | millisecond
  | microsecond
  | nanosecond
  deriving DecidableEq

/-- Logical type tag, from `datatypes::DataType`.  The spec treats it as an
opaque, equality-comparable tag; only the variants used by the analysed
kernels are listed. -/
inductive DataType
  | null
  | boolean
  | int8
  | int16
  | int32
  | int64
  | uint8
  | uint16
  | uint32
  | uint64
  | date32
  | date64
  | time32 (unit : TimeUnit)
  | time64 (unit : TimeUnit)
  | timestamp (unit : TimeUnit) (tz : Option String)
  deriving DecidableEq

/-- Errors of the library, from `error::ArrowError`; the analysed kernels
only ever construct `InvalidArgumentError`. -/
inductive ArrowError
  | invalidArgumentError (msg : String)
  deriving DecidableEq

/-- Outcome of running a fallible / possibly panicking Rust computation:
`panic` models an unrecoverable fault (assertion failure, `%` by zero),
`err` a recoverable `Err(_)` returned to the caller, `ok` a result. -/
inductive RunResult (α : Type)
  | panic
  | err (e : ArrowError)
  | ok (value : α)
  deriving DecidableEq

/-- `PrimitiveArray<T>`: a typed values buffer plus an optional validity
bitmap (absence means all-valid) and a logical type tag.  The element
`offset` of a sliced array is already folded into `values`/`validity`,
matching the slices the kernels actually read. -/
structure PrimitiveArray (α : Type) where
  data_type : DataType
  values : List α
  validity : Option (List Bool)
  deriving DecidableEq

/-- Validity bit at position `i`: an absent bitmap means every position is
valid.  (Positions are only queried below subject to a length bound.) -/
def bitAt (v : Option (List Bool)) (i : Nat) : Bool :=
  match v with
  | none => true
  | some l => l.getD i false

/-- Element view of a primitive array at `i`: `some value` when the slot is
valid, `none` when the slot is null. -/
def PrimitiveArray.getE (arr : PrimitiveArray α) (i : Nat) (d : α) : Option α :=
  if bitAt arr.validity i then some (arr.values.getD i d) else none

/-- `NullArray`: the null layout stores only a logical type and a length.
Modelled from the spec: `NullArray` itself is not under `src/`; per the
spec the Null variant "tracks only a running length counter and performs
no byte copies", and `NullArray::from_data(data_type, length)` (as called
by `GrowableNull`) takes no validity argument, so the array carries no
validity bitmap. -/
structure NullArray where
  data_type : DataType
  length : Nat
  deriving DecidableEq

/-- `NullArray::from_data`. -/
def NullArray.from_data (dt : DataType) (len : Nat) : NullArray :=
  ⟨dt, len⟩

/-- A `NullArray` has no validity bitmap slot at all. -/
def NullArray.validity (_ : NullArray) : Option (List Bool) :=
  none

/-- `GrowableNull` from `src/array/growable/null.rs`: tracks only the
target logical type and a running length. -/
structure GrowableNull where
  data_type : DataType
  length : Nat
  deriving DecidableEq

/-- `GrowableNull::new`. -/
def GrowableNull.new (dt : DataType) : GrowableNull :=
  ⟨dt, 0⟩

/-- `GrowableNull::extend(_, _, len)`: both the source index and the start
position are ignored; only the running length grows. -/
def GrowableNull.extend (g : GrowableNull) (_src _start len : Nat) : GrowableNull :=
  { g with length := g.length + len }

/-- `GrowableNull::extend_validity(additional)`. -/
def GrowableNull.extend_validity (g : GrowableNull) (additional : Nat) : GrowableNull :=
  { g with length := g.length + additional }

/-- `GrowableNull::as_box` / `as_arc` / `into`: materialize the accumulated
appends as a `NullArray`. -/
def GrowableNull.finish (g : GrowableNull) : NullArray :=
  NullArray.from_data g.data_type g.length

/-- One call of the `Growable` interface, for stating properties about
arbitrary call sequences. -/
inductive GrowOp
  | extend (src start len : Nat)
  | extendValidity (len : Nat)
  deriving DecidableEq

/-- The length an operation asks to append. -/
def GrowOp.len : GrowOp → Nat
  | .extend _ _ n => n
  | .extendValidity n => n

/-- Run one `Growable` call on a `GrowableNull`. -/
def GrowableNull.applyOp (g : GrowableNull) : GrowOp → GrowableNull
  | .extend s st n => g.extend s st n
  | .extendValidity n => g.extend_validity n

/-- Run a sequence of `Growable` calls on a `GrowableNull`. -/
def GrowableNull.applyOps (g : GrowableNull) (ops : List GrowOp) : GrowableNull :=
  ops.foldl GrowableNull.applyOp g

/-- `BooleanArray`: a bitmap of values plus an optional validity bitmap.
The FFI importer constructs it via `BooleanArray::from_data`. -/
structure BooleanArray where
  data_type : DataType
  values : List Bool
  validity : Option (List Bool)
  deriving DecidableEq

/-- `BooleanArray::from_data`. -/
def BooleanArray.from_data (dt : DataType) (values : List Bool)
    (validity : Option (List Bool)) : BooleanArray :=
  ⟨dt, values, validity⟩

/-- `Bitmap::slice(offset, length)`: O(1) view of a bit range. -/
def bitmapSlice (l : List Bool) (offset length : Nat) : List Bool :=
  (l.drop offset).take length

/-- A cross-runtime descriptor as seen by `BooleanArray::try_from_ffi`.
Modelled from the spec: `ffi::ArrowArrayRef` is not under `src/`; per the
spec it exposes the declared logical type of the field, the element length
and offset, and fallible reconstruction of the validity bitmap and of
buffer slot 0 as a bitmap (each may fail with a recoverable error, e.g.
when a required pointer slot cannot be reinterpreted). -/
structure ArrowArrayRef where
  field_data_type : DataType
  len : Nat
  offset : Nat
  validityR : Except ArrowError (Option (List Bool))
  bitmap0R : Except ArrowError (List Bool)

/-- `BooleanArray::try_from_ffi` from `src/array/boolean/ffi.rs`:
`assert_eq!(data_type, DataType::Boolean)` aborts with a panic when the
declared type differs from Boolean; then the validity bitmap and buffer 0
are reconstructed (each `?` propagates a recoverable error), and when the
descriptor offset is nonzero both bitmaps are re-sliced by
`(offset, length)`. -/
def BooleanArray.try_from_ffi (a : ArrowArrayRef) : RunResult BooleanArray :=
  if a.field_data_type = DataType.boolean then
    match a.validityR with
    | .error e => .err e
    | .ok validity =>
      match a.bitmap0R with
      | .error e => .err e
      | .ok values =>
        if a.offset > 0 then
          .ok (BooleanArray.from_data a.field_data_type
            (bitmapSlice values a.offset a.len)
            (validity.map (fun x => bitmapSlice x a.offset a.len)))
        else
          .ok (BooleanArray.from_data a.field_data_type values validity)
  else .panic

/-- Merge of two optional validity bitmaps: a position is valid iff it is
valid in both operands; absence means all-valid.  Modelled from the spec:
`compute::arity` is not under `src/`; the spec fixes "output validity is
the logical OR of both operand validities per position" (null if either
operand is null). -/
def combineValidity : Option (List Bool) → Option (List Bool) → Option (List Bool)
  | none, none => none
  | some l, none => some l
  | none, some r => some r
  | some l, some r => some (List.zipWith and l r)

/-- Restriction of a validity bitmap by a per-position success list (used
by the checked kernels: a failed operator marks the slot invalid). -/
def mergeSuccess : Option (List Bool) → List Bool → Option (List Bool)
  | none, succ => some succ
  | some v, succ => some (List.zipWith and v succ)

/-- Modelled from the spec: `arity::binary` (not under `src/`) — the
unchecked elementwise kernel.  It validates equal lengths up front, then
applies the native operator to every payload slot; an operator fault
(`op` returning `none`, e.g. remainder by zero) is not intercepted and
surfaces as a panic.  `dflt` is irrelevant when no fault occurs. -/
def binary {α : Type} (lhs rhs : PrimitiveArray α) (dt : DataType)
    (op : α → α → Option α) (dflt : α) : RunResult (PrimitiveArray α) :=
  if lhs.values.length ≠ rhs.values.length then
    .err (.invalidArgumentError "Arrays must have the same length")
  else if (List.zipWith op lhs.values rhs.values).all Option.isSome then
    .ok ⟨dt, (List.zipWith op lhs.values rhs.values).map (fun o => o.getD dflt),
      combineValidity lhs.validity rhs.validity⟩
  else .panic

/-- Modelled from the spec: `arity::binary_checked` (not under `src/`) —
the checked elementwise kernel.  It validates equal lengths up front, then
applies the fallible operator to every slot; a failing slot is marked
invalid (value `dflt`) instead of faulting, so the kernel always completes
with an array of the same length. -/
def binary_checked {α : Type} (lhs rhs : PrimitiveArray α) (dt : DataType)
    (op : α → α → Option α) (dflt : α) : RunResult (PrimitiveArray α) :=
  if lhs.values.length ≠ rhs.values.length then
    .err (.invalidArgumentError "Arrays must have the same length")
  else
    .ok ⟨dt, (List.zipWith op lhs.values rhs.values).map (fun o => o.getD dflt),
      mergeSuccess (combineValidity lhs.validity rhs.validity)
        ((List.zipWith op lhs.values rhs.values).map Option.isSome)⟩

/-- Rust `%` / `checked_rem` on a signed `w`-bit integer: truncated
remainder, undefined (panic / `None`) for a zero divisor and for the
overflowing `MIN % -1`. -/
def rustRemOp (w : Nat) (a b : Int) : Option Int :=
  if b = 0 ∨ (a = -(2 ^ (w - 1)) ∧ b = -1) then none else some (Int.tmod a b)

/-- `rem` from `src/compute/arithmetics/basic/rem.rs`, instantiated at a
signed `w`-bit element type: rejects mismatched logical types before any
element is processed, then runs the unchecked elementwise kernel. -/
def rem (w : Nat) (lhs rhs : PrimitiveArray Int) : RunResult (PrimitiveArray Int) :=
  if lhs.data_type ≠ rhs.data_type then
    .err (.invalidArgumentError "Arrays must have the same logical type")
  else binary lhs rhs lhs.data_type (rustRemOp w) 0

/-- `checked_rem` from `src/compute/arithmetics/basic/rem.rs`, instantiated
at a signed `w`-bit element type: rejects mismatched logical types before
any element is processed, then runs the checked elementwise kernel. -/
def checked_rem (w : Nat) (lhs rhs : PrimitiveArray Int) :
    RunResult (PrimitiveArray Int) :=
  if lhs.data_type ≠ rhs.data_type then
    .err (.invalidArgumentError "Arrays must have the same logical type")
  else binary_checked lhs rhs lhs.data_type (rustRemOp w) 0

/-- Modelled from the spec: `arity::unary` (not under `src/`) — the pure
elementwise kernel: applies `op` to every payload slot (also slots marked
invalid) and keeps the validity bitmap unchanged. -/
def unary {α : Type} (lhs : PrimitiveArray α) (op : α → α) (dt : DataType) :
    PrimitiveArray α :=
  ⟨dt, lhs.values.map op, lhs.validity⟩

/-- Modelled from the spec: `arity::unary` applied to an operator that can
fault (Rust `%` panics on a zero divisor / signed overflow); the panic
aborts the whole kernel, so the result is `none` whenever any payload slot
faults. -/
def unaryP {α : Type} (lhs : PrimitiveArray α) (op : α → Option α)
    (dt : DataType) : Option (PrimitiveArray α) :=
  (lhs.values.mapM op).map fun vs => ⟨dt, vs, lhs.validity⟩

/-- Modelled from the spec: the reduction constant of the `strength_reduce`
crate (external dependency; the spec calls it "a reciprocal-based reduction
constant", precomputed once per divisor): the rounded-up `2w`-bit
reciprocal of the `w`-bit divisor `d`. -/
def sr_multiplier (w d : Nat) : Nat :=
  2 ^ (2 * w) / d + 1

/-- Modelled from the spec: `StrengthReducedUw::new(d)` — precomputes the
reduction constant; asserts (panics, hence `none`) on a zero divisor. -/
def strengthReducedNew (w d : Nat) : Option Nat :=
  if d = 0 then none else some (sr_multiplier w d)

/-- Modelled from the spec: `x % reduced` of the `strength_reduce` crate —
remainder computed from the reciprocal multiplication only: the candidate
quotient is the high `2w`-bit part of `x * m`, and the remainder is
`x - d * quotient`. -/
def sr_rem (w d m x : Nat) : Nat :=
  x - d * (x * m / 2 ^ (2 * w))

/-- Lookup of the strength-reduced fast-path width for a logical type:
exactly the four unsigned fixed-width kinds are dispatched. -/
def uwidth : DataType → Option Nat
  | .uint8 => some 8
  | .uint16 => some 16
  | .uint32 => some 32
  | .uint64 => some 64
  | _ => none

/-- `rem_scalar` from `src/compute/arithmetics/basic/rem.rs`, instantiated
at an unsigned element type (elements are `w`-bit naturals): `T::DATA_TYPE`
(passed as `td`) is matched against the four unsigned kinds; a match
precomputes the reduction constant once (panicking on divisor 0, before any
element is read) and maps `a % reduced` over the elements; any other kind
falls back to the generic per-element `a % rhs`, which panics on the first
element when `rhs = 0`. -/
def rem_scalar (td : DataType) (lhs : PrimitiveArray Nat) (rhs : Nat) :
    Option (PrimitiveArray Nat) :=
  match td with
  | .uint64 =>
    (strengthReducedNew 64 rhs).map fun m =>
      unary lhs (fun a => sr_rem 64 rhs m a) lhs.data_type
  | .uint32 =>
    (strengthReducedNew 32 rhs).map fun m =>
      unary lhs (fun a => sr_rem 32 rhs m a) lhs.data_type
  | .uint16 =>
    (strengthReducedNew 16 rhs).map fun m =>
      unary lhs (fun a => sr_rem 16 rhs m a) lhs.data_type
  | .uint8 =>
    (strengthReducedNew 8 rhs).map fun m =>
      unary lhs (fun a => sr_rem 8 rhs m a) lhs.data_type
  | _ => unaryP lhs (fun a => if rhs = 0 then none else some (a % rhs)) lhs.data_type

/-- `rem_scalar` instantiated at a signed `w`-bit element type: the
dispatch on `T::DATA_TYPE` matches none of the four unsigned arms, so the
generic per-element arm runs; Rust `%` panics on a zero divisor or on the
overflowing `MIN % -1`. -/
def rem_scalar_signed (w : Nat) (lhs : PrimitiveArray Int) (rhs : Int) :
    Option (PrimitiveArray Int) :=
  unaryP lhs
    (fun a => if rhs = 0 ∨ (a = -(2 ^ (w - 1)) ∧ rhs = -1) then none
      else some (Int.tmod a rhs))
    lhs.data_type

/-- Two's-complement wraparound at `w` bits, the behaviour of Rust integer
multiplication / `as` truncation where it can overflow. -/
def wrap (w : Nat) (x : Int) : Int :=
  (x + 2 ^ (w - 1)) % 2 ^ w - 2 ^ (w - 1)

/-- `time_unit_multiple` from `src/compute/cast/primitive_to.rs`: ticks per
second of a time unit.  The constants `MILLISECONDS`, `MICROSECONDS`,
`NANOSECONDS` live in `temporal_conversions` (not under `src/`); their
values are forced by the unit semantics the spec states. -/
def time_unit_multiple : TimeUnit → Int
  | .second => 1
  | .millisecond => 1000
  | .microsecond => 1000000
  | .nanosecond => 1000000000

/-- `time32s_to_time32ms`: `unary(from, |x| x * 1000, Time32(Millisecond))`;
the i32 multiplication wraps on overflow. -/
def time32s_to_time32ms (a : PrimitiveArray Int) : PrimitiveArray Int :=
  unary a (fun x => wrap 32 (x * 1000)) (DataType.time32 TimeUnit.millisecond)

/-- `time32ms_to_time32s`: `unary(from, |x| x / 1000, Time32(Second))`;
Rust `/` on i32 truncates toward zero. -/
def time32ms_to_time32s (a : PrimitiveArray Int) : PrimitiveArray Int :=
  unary a (fun x => Int.tdiv x 1000) (DataType.time32 TimeUnit.second)

/-- `time64us_to_time64ns`: `unary(from, |x| x * 1000, Time64(Nanosecond))`. -/
def time64us_to_time64ns (a : PrimitiveArray Int) : PrimitiveArray Int :=
  unary a (fun x => wrap 64 (x * 1000)) (DataType.time64 TimeUnit.nanosecond)

/-- `time64ns_to_time64us`: `unary(from, |x| x / 1000, Time64(Microsecond))`. -/
def time64ns_to_time64us (a : PrimitiveArray Int) : PrimitiveArray Int :=
  unary a (fun x => Int.tdiv x 1000) (DataType.time64 TimeUnit.microsecond)

/-- `date32_to_date64`: `unary(from, |x| x as i64 * MILLISECONDS_IN_DAY,
Date64)` with `MILLISECONDS_IN_DAY = 86400000`. -/
def date32_to_date64 (a : PrimitiveArray Int) : PrimitiveArray Int :=
  unary a (fun x => wrap 64 (x * 86400000)) DataType.date64

/-- `date64_to_date32`: `unary(from, |x| (x / MILLISECONDS_IN_DAY) as i32,
Date32)`; the final `as i32` truncating cast wraps. -/
def date64_to_date32 (a : PrimitiveArray Int) : PrimitiveArray Int :=
  unary a (fun x => wrap 32 (Int.tdiv x 86400000)) DataType.date32

/-- `time32_to_time64`: widens and multiplies by
`to_size / from_size` (the cast dispatcher only feeds it a coarser source
unit, so the precomputed quotient is positive). -/
def time32_to_time64 (a : PrimitiveArray Int) (from_unit to_unit : TimeUnit) :
    PrimitiveArray Int :=
  unary a
    (fun x => wrap 64 (x * Int.tdiv (time_unit_multiple to_unit)
      (time_unit_multiple from_unit)))
    (DataType.time64 to_unit)

/-- `time64_to_time32`: divides by `from_size / to_size` and truncates to
i32 (the cast dispatcher only feeds it a finer source unit, so the
precomputed divisor is positive). -/
def time64_to_time32 (a : PrimitiveArray Int) (from_unit to_unit : TimeUnit) :
    PrimitiveArray Int :=
  unary a
    (fun x => wrap 32 (Int.tdiv x (Int.tdiv (time_unit_multiple from_unit)
      (time_unit_multiple to_unit))))
    (DataType.time32 to_unit)

/-- `timestamp_to_timestamp`: "we either divide or multiply, depending on
size of each unit" — divides by `from_size / to_size` when the source unit
has at least as many ticks per second, otherwise multiplies by
`to_size / from_size`. -/
def timestamp_to_timestamp (a : PrimitiveArray Int)
    (from_unit to_unit : TimeUnit) (tz : Option String) : PrimitiveArray Int :=
  if time_unit_multiple to_unit ≤ time_unit_multiple from_unit then
    unary a
      (fun x => Int.tdiv x (Int.tdiv (time_unit_multiple from_unit)
        (time_unit_multiple to_unit)))
      (DataType.timestamp to_unit tz)
  else
    unary a
      (fun x => wrap 64 (x * Int.tdiv (time_unit_multiple to_unit)
        (time_unit_multiple from_unit)))
      (DataType.timestamp to_unit tz)

/-- `q` is the truncated-division rescaling of `x` by the positive factor
`den`: the remainder it leaves is smaller than `den` in magnitude and has
the sign of `x` (truncation toward zero, not floor). -/
def divSpec (den x q : Int) : Prop :=
  ∃ s, x = den * q + s ∧ s.natAbs < den.natAbs ∧
    (0 ≤ x → 0 ≤ s) ∧ (x ≤ 0 → s ≤ 0)

/-- Rust byte-slice read `&values[start..end]` (bounds are in range at
every call site reached by the kernels below). -/
def sliceInt (values : List Nat) (s e : Int) : List Nat :=
  (values.drop s.toNat).take (e - s).toNat

/-- The per-slot byte ranges gathered by `take_values` from
`src/compute/take/generic_binary.rs`: `starts` zipped with the windows of
width 2 of the output offsets; slot `i` copies
`values[start_i .. start_i + (offsets[i+1] - offsets[i])]`. -/
def take_values_slices (starts offsets : List Int) (values : List Nat) :
    List (List Nat) :=
  List.zipWith (fun s p => sliceInt values s (s + (p.2 - p.1))) starts
    (List.zipWith Prod.mk offsets offsets.tail)

/-- `take_values`: concatenation of the per-slot ranges.  The `length`
argument of the Rust function only pre-reserves capacity
(`MutableBuffer::with_capacity`), so it does not influence the output. -/
def take_values (_length : Int) (starts offsets : List Int) (values : List Nat) :
    List Nat :=
  (take_values_slices starts offsets values).flatten

/-- The offsets/starts accumulation loop of `take_indices_validity`: walks
the raw index payloads with a running output length; an index whose
`index + 1` is inside the source offsets advances the running length by the
element width and records its start; an out-of-range index records start 0
and leaves the running length unchanged.  (`offsets.getD idx 0` is the Rust
`offsets[index]`, in bounds because `offsets.get(index + 1)` returned
`Some`.)  Returns (starts, running length after each position). -/
def tivLoop (offsets : List Int) : List Nat → Int → (List Int × List Int)
  | [], _ => ([], [])
  | idx :: rest, len =>
    match offsets[idx + 1]? with
    | some next =>
      let start := offsets.getD idx 0
      let len' := len + (next - start)
      let r := tivLoop offsets rest len'
      (start :: r.1, len' :: r.2)
    | none =>
      let r := tivLoop offsets rest len
      (0 :: r.1, len :: r.2)

/-- `take_indices_validity` from `src/compute/take/generic_binary.rs`: the
gather path where only the index array has nulls.  It iterates over ALL raw
index payloads (`indices.values()`), emits output offsets `0` followed by
the running totals, copies the recorded ranges, and clones the index
array's validity unchanged into the result. -/
def take_indices_validity (offsets : List Int) (values : List Nat)
    (indices : PrimitiveArray Nat) : List Int × List Nat × Option (List Bool) :=
  let r := tivLoop offsets indices.values 0
  (0 :: r.2,
   take_values (r.2.getD (r.2.length - 1) 0) r.1 (0 :: r.2) values,
   indices.validity)

/-- `getD` through `zipWith`, for positions inside both lists. -/
lemma listGetD_zipWith {α β γ : Type} (f : α → β → γ) :
    ∀ (l1 : List α) (l2 : List β) (i : Nat) (d1 : α) (d2 : β) (d3 : γ),
      i < l1.length → i < l2.length →
      (List.zipWith f l1 l2).getD i d3 = f (l1.getD i d1) (l2.getD i d2) := by
  intro l1
  induction l1 with
  | nil => intro l2 i d1 d2 d3 h1 _; simp at h1
  | cons a t ih =>
    intro l2 i d1 d2 d3 h1 h2
    cases l2 with
    | nil => simp at h2
    | cons b t2 =>
      cases i with
      | zero => simp [List.getD]
      | succ j =>
        simp only [List.zipWith_cons_cons, List.getD_cons_succ]
        exact ih t2 j d1 d2 d3 (by simpa using h1) (by simpa using h2)

/-- `getD` through `map`, for positions inside the list. -/
lemma listGetD_map {α β : Type} (f : α → β) :
    ∀ (l : List α) (i : Nat) (d1 : α) (d2 : β),
      i < l.length → (l.map f).getD i d2 = f (l.getD i d1) := by
  intro l
  induction l with
  | nil => intro i d1 d2 h; simp at h
  | cons a t ih =>
    intro i d1 d2 h
    cases i with
    | zero => simp [List.getD]
    | succ j =>
      simp only [List.map_cons, List.getD_cons_succ]
      exact ih j d1 d2 (by simpa using h)

/-- A positionwise consequence of `List.all`. -/
lemma listAll_getD {α : Type} (p : α → Bool) :
    ∀ (l : List α) (i : Nat) (d : α),
      l.all p = true → i < l.length → p (l.getD i d) = true := by
  intro l
  induction l with
  | nil => intro i d _ h; simp at h
  | cons a t ih =>
    intro i d hall h
    simp only [List.all_cons, Bool.and_eq_true] at hall
    cases i with
    | zero => simpa [List.getD] using hall.1
    | succ j => simpa [List.getD_cons_succ] using ih j d hall.2 (by simpa using h)

lemma growableNull_applyOps_length (ops : List GrowOp) :
    ∀ g : GrowableNull,
      (g.applyOps ops).length = g.length + (ops.map GrowOp.len).sum ∧
      (g.applyOps ops).data_type = g.data_type := by
  induction ops with
  | nil => intro g; simp [GrowableNull.applyOps]
  | cons op rest ih =>
    intro g
    have h := ih (g.applyOp op)
    cases op with
    | extend s st n =>
      simpa [GrowableNull.applyOps, GrowableNull.applyOp, GrowableNull.extend,
        GrowOp.len, Nat.add_assoc] using h
    | extendValidity n =>
      simpa [GrowableNull.applyOps, GrowableNull.applyOp,
        GrowableNull.extend_validity, GrowOp.len, Nat.add_assoc] using h

/-- C7 counterexample: a sequence consisting of one `extend_validity` call
on a `GrowableNull` materializes an array with NO validity bitmap, although
the claimed invariant requires a bitmap to be present whenever any
`extend_validity` call occurred. -/
theorem growableNull_extend_validity_produces_no_bitmap :
    (((GrowableNull.new DataType.null).extend_validity 3).finish).validity = none :=
  rfl

/-- C7 (amended): for `GrowableNull` the materialized array never carries a
validity bitmap, for every sequence of `extend`/`extend_validity` calls —
the null layout encodes invalidity structurally, so the "bitmap present iff
some invalid element was appended" invariant does not apply to it; the
length is still the sum of all requested lengths. -/
theorem growableNull_finish_validity_absent (dt : DataType) (ops : List GrowOp) :
    (((GrowableNull.new dt).applyOps ops).finish).validity = none ∧
    (((GrowableNull.new dt).applyOps ops).finish).length = (ops.map GrowOp.len).sum := by
  refine ⟨rfl, ?_⟩
  have h := growableNull_applyOps_length ops (GrowableNull.new dt)
  simpa [GrowableNull.finish, NullArray.from_data, GrowableNull.new] using h.1

/-- C4 counterexample: a descriptor whose declared logical type is `Int32`
presented to the `BooleanArray` importer makes `try_from_ffi` abort with an
assertion failure (`panic`), not return a recoverable error. -/
theorem try_from_ffi_wrong_type_panics :
    BooleanArray.try_from_ffi
      ⟨DataType.int32, 2, 0, Except.ok none, Except.ok [true, false]⟩ =
      RunResult.panic :=
  rfl

/-- C4 (amended): when the descriptor's declared logical type differs from
Boolean, import aborts with an unrecoverable assertion failure (a panic),
not a recoverable error; recoverable errors are reported to the caller only
for failures while reconstructing the validity or values bitmaps of a
descriptor whose declared type is Boolean. -/
theorem try_from_ffi_type_check (a : ArrowArrayRef) :
    (a.field_data_type ≠ DataType.boolean →
      BooleanArray.try_from_ffi a = RunResult.panic) ∧
    (∀ e, a.field_data_type = DataType.boolean → a.validityR = Except.error e →
      BooleanArray.try_from_ffi a = RunResult.err e) ∧
    (∀ e v, a.field_data_type = DataType.boolean → a.validityR = Except.ok v →
      a.bitmap0R = Except.error e →
      BooleanArray.try_from_ffi a = RunResult.err e) := by
  refine ⟨?_, ?_, ?_⟩
  · intro h
    simp [BooleanArray.try_from_ffi, h]
  · intro e h hv
    simp [BooleanArray.try_from_ffi, h, hv]
  · intro e v h hv hb
    simp [BooleanArray.try_from_ffi, h, hv, hb]

/-- C4 witness: the amended behaviour at concrete descriptors — a `Date32`
declared type panics, and a Boolean-typed descriptor whose values-bitmap
reconstruction fails surfaces that error to the caller. -/
theorem try_from_ffi_type_check_witness :
    BooleanArray.try_from_ffi
      ⟨DataType.date32, 1, 0, Except.ok none, Except.ok [true]⟩ =
      RunResult.panic ∧
    BooleanArray.try_from_ffi
      ⟨DataType.boolean, 1, 0, Except.ok none,
        Except.error (ArrowError.invalidArgumentError "oob")⟩ =
      RunResult.err (ArrowError.invalidArgumentError "oob") :=
  ⟨(try_from_ffi_type_check _).1 (by decide),
   (try_from_ffi_type_check _).2.2 _ none rfl rfl rfl⟩

/-- C10: `GrowableNull::extend` ignores its source-index and start
arguments — it acts exactly like `extend_validity` of the same length — and
the materialized array is determined solely by the builder's logical type
and the sum of all requested lengths. -/
theorem growableNull_extend_ignores_args :
    (∀ (g : GrowableNull) (i s n : Nat), g.extend i s n = g.extend_validity n) ∧
    (∀ (dt : DataType) (ops : List GrowOp),
      ((GrowableNull.new dt).applyOps ops).finish =
        NullArray.from_data dt ((ops.map GrowOp.len).sum)) := by
  constructor
  · intro g i s n
    rfl
  · intro dt ops
    have h := growableNull_applyOps_length ops (GrowableNull.new dt)
    simp [GrowableNull.finish, GrowableNull.new] at h ⊢
    rw [h.1, h.2]

/-- C6: on operands of different logical types, both `rem` and
`checked_rem` fail immediately with the type-mismatch error; no result
array (and hence no output buffer) is ever produced. -/
theorem rem_type_mismatch (w : Nat) (lhs rhs : PrimitiveArray Int)
    (h : lhs.data_type ≠ rhs.data_type) :
    rem w lhs rhs =
      RunResult.err (ArrowError.invalidArgumentError
        "Arrays must have the same logical type") ∧
    checked_rem w lhs rhs =
      RunResult.err (ArrowError.invalidArgumentError
        "Arrays must have the same logical type") := by
  constructor
  · simp [rem, h]
  · simp [checked_rem, h]

/-- C6 witness: concrete arrays tagged `Int32` vs `Int64` are rejected by
both kernels with the type-mismatch error. -/
theorem rem_type_mismatch_witness :
    rem 32 ⟨DataType.int32, [1, 2], none⟩ ⟨DataType.int64, [3, 4], none⟩ =
      RunResult.err (ArrowError.invalidArgumentError
        "Arrays must have the same logical type") ∧
    checked_rem 32 ⟨DataType.int32, [1, 2], none⟩ ⟨DataType.int64, [3, 4], none⟩ =
      RunResult.err (ArrowError.invalidArgumentError
        "Arrays must have the same logical type") :=
  rem_type_mismatch 32 _ _ (by decide)

/-- The reciprocal multiplication recovers the exact quotient: for a `w`-bit
divisor and a `w`-bit argument, the high `2w`-bit part of `x * m` is
`x / d`. -/
lemma sr_div_eq (w d x : Nat) (hd : 0 < d) (hdw : d < 2 ^ w) (hx : x < 2 ^ w) :
    x * sr_multiplier w d / 2 ^ (2 * w) = x / d := by
  have hN0 : 0 < 2 ^ (2 * w) := Nat.pos_pow_of_pos _ (by norm_num)
  have hNsq : 2 ^ (2 * w) = 2 ^ w * 2 ^ w := by
    rw [two_mul, pow_add]
  have hmod : 2 ^ (2 * w) % d < d := Nat.mod_lt _ hd
  have hdm : d * sr_multiplier w d = 2 ^ (2 * w) + (d - 2 ^ (2 * w) % d) := by
    have h1 := Nat.div_add_mod (2 ^ (2 * w)) d
    have h2 : d * sr_multiplier w d = d * (2 ^ (2 * w) / d) + d := by
      rw [sr_multiplier, Nat.mul_add, Nat.mul_one]
    omega
  have hxe : x * (d - 2 ^ (2 * w) % d) < 2 ^ (2 * w) := by
    calc x * (d - 2 ^ (2 * w) % d) ≤ x * d :=
          Nat.mul_le_mul_left x (Nat.sub_le d _)
      _ < 2 ^ w * 2 ^ w := Nat.mul_lt_mul_of_lt_of_le hx (Nat.le_of_lt hdw)
        (Nat.pos_pow_of_pos _ (by norm_num))
      _ = 2 ^ (2 * w) := hNsq.symm
  apply Nat.div_eq_of_lt_le
  · calc x / d * 2 ^ (2 * w) ≤ x / d * (d * sr_multiplier w d) :=
        Nat.mul_le_mul_left _ (by rw [hdm]; exact Nat.le_add_right _ _)
      _ = x / d * d * sr_multiplier w d := by ring
      _ ≤ x * sr_multiplier w d :=
        Nat.mul_le_mul_right _ (Nat.div_mul_le_self x d)
  · have key : d * (x * sr_multiplier w d) < d * ((x / d + 1) * 2 ^ (2 * w)) := by
      have e1 : d * (x * sr_multiplier w d) =
          x * 2 ^ (2 * w) + x * (d - 2 ^ (2 * w) % d) := by
        calc d * (x * sr_multiplier w d) = x * (d * sr_multiplier w d) := by ring
          _ = x * 2 ^ (2 * w) + x * (d - 2 ^ (2 * w) % d) := by
            rw [hdm, Nat.mul_add]
      have e2 : d * ((x / d + 1) * 2 ^ (2 * w)) =
          (d * (x / d) + d) * 2 ^ (2 * w) := by ring
      have e3 : x + 1 ≤ d * (x / d) + d := by
        have h6 : x / d < x / d + 1 := Nat.lt_succ_self _
        have h7 : x < (x / d + 1) * d := (Nat.div_lt_iff_lt_mul hd).mp h6
        calc x + 1 ≤ (x / d + 1) * d := h7
          _ = d * (x / d) + d := by ring
      rw [e1, e2]
      calc x * 2 ^ (2 * w) + x * (d - 2 ^ (2 * w) % d)
          < x * 2 ^ (2 * w) + 2 ^ (2 * w) := Nat.add_lt_add_left hxe _
        _ = (x + 1) * 2 ^ (2 * w) := by ring
        _ ≤ (d * (x / d) + d) * 2 ^ (2 * w) := Nat.mul_le_mul_right _ e3
    exact Nat.lt_of_mul_lt_mul_left key

/-- The reciprocal-based remainder agrees with the native remainder on all
`w`-bit inputs and divisors. -/
lemma sr_rem_mod (w d x : Nat) (hd : 0 < d) (hdw : d < 2 ^ w) (hx : x < 2 ^ w) :
    sr_rem w d (sr_multiplier w d) x = x % d := by
  rw [sr_rem, sr_div_eq w d x hd hdw hx]
  have h := Nat.div_add_mod x d
  exact Nat.sub_eq_of_eq_add (by omega)

/-- C2: for every unsigned fixed-width element kind (u8, u16, u32, u64),
every input array whose elements fit the width, and every nonzero divisor
representable in the width (including 1 and the maximum value), the
strength-reduced fast path of `rem_scalar` returns exactly the array the
generic per-element path `a % rhs` would produce — identical values and
identical validity. -/
theorem rem_scalar_fast_eq_generic (td : DataType) (w : Nat)
    (lhs : PrimitiveArray Nat) (rhs : Nat)
    (hw : uwidth td = some w) (h0 : 0 < rhs) (hmax : rhs < 2 ^ w)
    (hvals : ∀ x ∈ lhs.values, x < 2 ^ w) :
    rem_scalar td lhs rhs = some (unary lhs (fun a => a % rhs) lhs.data_type) := by
  have hne : rhs ≠ 0 := Nat.pos_iff_ne_zero.mp h0
  have hmap : lhs.values.map (fun a => sr_rem w rhs (sr_multiplier w rhs) a) =
      lhs.values.map (fun a => a % rhs) :=
    List.map_congr_left (fun x hx => sr_rem_mod w rhs x h0 hmax (hvals x hx))
  cases td <;> simp only [uwidth, Option.some.injEq, reduceCtorEq] at hw <;>
    subst hw <;>
    simp [rem_scalar, strengthReducedNew, hne, unary, hmap]

/-- C2 witness: a concrete `u8` array with a null slot, divided by the
type's maximum value 255. -/
theorem rem_scalar_fast_eq_generic_witness :
    rem_scalar DataType.uint8 ⟨DataType.uint8, [5, 255, 0], some [true, false, true]⟩ 255 =
      some (unary ⟨DataType.uint8, [5, 255, 0], some [true, false, true]⟩
        (fun a => a % 255) DataType.uint8) :=
  rem_scalar_fast_eq_generic DataType.uint8 8 _ 255 rfl (by decide) (by decide)
    (by decide)

/-- C9: on the four unsigned fast-path kinds, `rem_scalar` with divisor 0
panics while precomputing the reduction constant, before any element is
read — also on an empty or an entirely-null input — whereas an
instantiation outside the fast path (a signed element type) applied to an
empty array with divisor 0 completes and returns the empty array. -/
theorem rem_scalar_zero_divisor (td : DataType) (w : Nat)
    (lhs : PrimitiveArray Nat) (hw : uwidth td = some w) :
    rem_scalar td lhs 0 = none ∧
    (∀ (w' : Nat) (dt : DataType) (v : Option (List Bool)),
      rem_scalar_signed w' ⟨dt, [], v⟩ 0 = some ⟨dt, [], v⟩) := by
  constructor
  · cases td <;> simp only [uwidth, Option.some.injEq, reduceCtorEq] at hw <;>
      simp [rem_scalar, strengthReducedNew]
  · intro w' dt v
    rfl

/-- C9 witness: divisor 0 on an entirely-null `u64` array panics, while an
empty `Int32`-typed signed array with divisor 0 is returned unchanged. -/
theorem rem_scalar_zero_divisor_witness :
    rem_scalar DataType.uint64 ⟨DataType.uint64, [1, 2], some [false, false]⟩ 0 =
      none ∧
    rem_scalar_signed 32 ⟨DataType.int32, [], none⟩ 0 =
      some ⟨DataType.int32, [], none⟩ :=
  ⟨(rem_scalar_zero_divisor DataType.uint64 64 _ rfl).1,
   (rem_scalar_zero_divisor DataType.uint64 64
      ⟨DataType.uint64, [], none⟩ rfl).2 32 DataType.int32 none⟩

/-- Position view of `combineValidity`: valid iff valid in both operands. -/
lemma bitAt_combine (v1 v2 : Option (List Bool)) (i n : Nat) (hi : i < n)
    (h1 : ∀ l, v1 = some l → l.length = n) (h2 : ∀ l, v2 = some l → l.length = n) :
    bitAt (combineValidity v1 v2) i = (bitAt v1 i && bitAt v2 i) := by
  cases v1 with
  | none =>
    cases v2 with
    | none => simp [combineValidity, bitAt]
    | some r => simp [combineValidity, bitAt]
  | some l =>
    cases v2 with
    | none => simp [combineValidity, bitAt]
    | some r =>
      simp only [combineValidity, bitAt]
      exact listGetD_zipWith and l r i false false false
        (by rw [h1 l rfl]; exact hi) (by rw [h2 r rfl]; exact hi)

/-- Position view of `mergeSuccess`: valid iff valid in the combined input
validity and the operator succeeded there. -/
lemma bitAt_mergeSuccess (cv : Option (List Bool)) (succ : List Bool)
    (i n : Nat) (hi : i < n)
    (hc : ∀ l, cv = some l → l.length = n) (hs : succ.length = n) :
    bitAt (mergeSuccess cv succ) i = (bitAt cv i && succ.getD i false) := by
  cases cv with
  | none => simp [mergeSuccess, bitAt]
  | some l =>
    simp only [mergeSuccess, bitAt]
    exact listGetD_zipWith and l succ i false false false
      (by rw [hc l rfl]; exact hi) (by rw [hs]; exact hi)

/-- Length of a combined validity bitmap, when present. -/
lemma combineValidity_length (v1 v2 : Option (List Bool)) (n : Nat)
    (h1 : ∀ l, v1 = some l → l.length = n) (h2 : ∀ l, v2 = some l → l.length = n) :
    ∀ l, combineValidity v1 v2 = some l → l.length = n := by
  intro l hl
  cases v1 with
  | none =>
    cases v2 with
    | none => simp [combineValidity] at hl
    | some r =>
      simp only [combineValidity, Option.some.injEq] at hl
      rw [← hl]
      exact h2 r rfl
  | some a =>
    cases v2 with
    | none =>
      simp only [combineValidity, Option.some.injEq] at hl
      rw [← hl]
      exact h1 a rfl
    | some r =>
      simp only [combineValidity, Option.some.injEq] at hl
      rw [← hl]
      simp [List.length_zipWith, h1 a rfl, h2 r rfl]

/-- C5: on equal-length operands of the same logical type, at every
position where both slots are valid, the divisor is nonzero and the
remainder does not overflow, the checked and unchecked kernels agree: the
element `checked_rem` produces is `some` of the element `rem` produces. -/
theorem checked_rem_agrees_rem (w : Nat) (lhs rhs : PrimitiveArray Int) (i : Nat)
    (hdt : lhs.data_type = rhs.data_type)
    (hlen : lhs.values.length = rhs.values.length)
    (hlv : ∀ v, lhs.validity = some v → v.length = lhs.values.length)
    (hrv : ∀ v, rhs.validity = some v → v.length = rhs.values.length)
    (hi : i < lhs.values.length)
    (hva : bitAt lhs.validity i = true) (hvb : bitAt rhs.validity i = true)
    (hb : rhs.values.getD i 0 ≠ 0)
    (hov : ¬(lhs.values.getD i 0 = -(2 ^ (w - 1)) ∧ rhs.values.getD i 0 = -1))
    (r : PrimitiveArray Int) (hr : rem w lhs rhs = RunResult.ok r) :
    ∃ c, checked_rem w lhs rhs = RunResult.ok c ∧
      c.getE i 0 = some (Int.tmod (lhs.values.getD i 0) (rhs.values.getD i 0)) ∧
      r.getE i 0 = c.getE i 0 := by
  have hrv' : ∀ v, rhs.validity = some v → v.length = lhs.values.length :=
    fun v hv => (hrv v hv).trans hlen.symm
  have hop : rustRemOp w (lhs.values.getD i 0) (rhs.values.getD i 0) =
      some (Int.tmod (lhs.values.getD i 0) (rhs.values.getD i 0)) := by
    simp only [rustRemOp]
    rw [if_neg (not_or.mpr ⟨hb, hov⟩)]
  have hzlen : (List.zipWith (rustRemOp w) lhs.values rhs.values).length =
      lhs.values.length := by
    simp [List.length_zipWith, ← hlen]
  have hzget : (List.zipWith (rustRemOp w) lhs.values rhs.values).getD i (some 0) =
      some (Int.tmod (lhs.values.getD i 0) (rhs.values.getD i 0)) := by
    rw [listGetD_zipWith (rustRemOp w) lhs.values rhs.values i 0 0 (some 0) hi
      (hlen ▸ hi), hop]
  have hvget : ((List.zipWith (rustRemOp w) lhs.values rhs.values).map
      (fun o => o.getD 0)).getD i 0 =
      Int.tmod (lhs.values.getD i 0) (rhs.values.getD i 0) := by
    rw [listGetD_map _ _ i (some 0) 0 (by rw [hzlen]; exact hi), hzget]
    rfl
  have hsget : ((List.zipWith (rustRemOp w) lhs.values rhs.values).map
      Option.isSome).getD i false = true := by
    rw [listGetD_map _ _ i (some 0) false (by rw [hzlen]; exact hi), hzget]
    rfl
  have hcombine : bitAt (combineValidity lhs.validity rhs.validity) i = true := by
    rw [bitAt_combine lhs.validity rhs.validity i lhs.values.length hi hlv hrv',
      hva, hvb]
    rfl
  have hmerge : bitAt (mergeSuccess (combineValidity lhs.validity rhs.validity)
      ((List.zipWith (rustRemOp w) lhs.values rhs.values).map Option.isSome)) i =
      true := by
    rw [bitAt_mergeSuccess _ _ i lhs.values.length hi
      (combineValidity_length _ _ _ hlv hrv') (by rw [List.length_map, hzlen]),
      hcombine, hsget]
    rfl
  simp only [rem, binary] at hr
  rw [if_neg (not_not_intro hdt), if_neg (not_not_intro hlen)] at hr
  by_cases hall : (List.zipWith (rustRemOp w) lhs.values rhs.values).all
      Option.isSome = true
  · rw [if_pos hall] at hr
    have hrr : r = ⟨lhs.data_type,
        (List.zipWith (rustRemOp w) lhs.values rhs.values).map (fun o => o.getD 0),
        combineValidity lhs.validity rhs.validity⟩ := by
      cases hr
      rfl
    refine ⟨⟨lhs.data_type,
      (List.zipWith (rustRemOp w) lhs.values rhs.values).map (fun o => o.getD 0),
      mergeSuccess (combineValidity lhs.validity rhs.validity)
        ((List.zipWith (rustRemOp w) lhs.values rhs.values).map Option.isSome)⟩,
      ?_, ?_, ?_⟩
    · simp only [checked_rem, binary_checked]
      rw [if_neg (not_not_intro hdt), if_neg (not_not_intro hlen)]
    · simp only [PrimitiveArray.getE, hmerge, if_pos]
      rw [hvget]
    · rw [hrr]
      simp only [PrimitiveArray.getE, hcombine, hmerge, if_pos]
  · rw [if_neg hall] at hr
    cases hr

/-- C5 witness: concrete `Int32` arrays `[7, 9] % [4, 5]` at position 0. -/
theorem checked_rem_agrees_rem_witness :
    ∃ c, checked_rem 32 ⟨DataType.int32, [7, 9], some [true, true]⟩
        ⟨DataType.int32, [4, 5], none⟩ = RunResult.ok c ∧
      c.getE 0 0 = some (Int.tmod 7 4) ∧
      (PrimitiveArray.mk DataType.int32 [3, 4] (some [true, true])).getE 0 0 =
        c.getE 0 0 :=
  checked_rem_agrees_rem 32 ⟨DataType.int32, [7, 9], some [true, true]⟩
    ⟨DataType.int32, [4, 5], none⟩ 0 rfl rfl
    (fun v hv => by cases hv; rfl) (fun v hv => by cases hv)
    (by decide) rfl rfl (by decide) (by decide)
    ⟨DataType.int32, [3, 4], some [true, true]⟩ (by decide)

/-- C3 counterexample: converting seconds to milliseconds — the TARGET unit
is the FINER one — multiplies (7 becomes 7000, not `7 / 1000 = 0`), and the
millisecond-to-second division truncates toward zero (−1500 ms becomes −1 s,
not the floor −2), so the claimed "multiply when the target unit is coarser,
divide when finer, with floor division" fails on both counts. -/
theorem time_rescale_direction_counterexample :
    (time32s_to_time32ms ⟨DataType.time32 TimeUnit.second, [7], none⟩).values =
      [7000] ∧
    (7000 : Int) ≠ Int.tdiv 7 1000 ∧
    (time32ms_to_time32s ⟨DataType.time32 TimeUnit.millisecond, [-1500], none⟩).values =
      [-1] ∧
    (-1 : Int) ≠ -2 := by
  refine ⟨?_, by decide, ?_, by decide⟩
  · simp [time32s_to_time32ms, unary, wrap]
  · simp [time32ms_to_time32s, unary]
    decide

/-- Wraparound is the identity on values that fit the width. -/
lemma wrap_eq_self (w : Nat) (x : Int) (hw : 0 < w)
    (h1 : -(2 ^ (w - 1)) ≤ x) (h2 : x < 2 ^ (w - 1)) : wrap w x = x := by
  have hpow : (2 : Int) ^ w = 2 ^ (w - 1) * 2 := by
    rw [← pow_succ]
    congr 1
    omega
  have h3 : 0 ≤ x + 2 ^ (w - 1) := by omega
  have h4 : x + 2 ^ (w - 1) < 2 ^ w := by omega
  rw [wrap, Int.emod_eq_of_lt h3 h4]
  ring

/-- Magnitude of the truncated remainder. -/
lemma tmod_natAbs (a b : Int) : (Int.tmod a b).natAbs = a.natAbs % b.natAbs := by
  cases a with
  | ofNat m =>
    cases b with
    | ofNat n => rfl
    | negSucc n => rfl
  | negSucc m =>
    cases b with
    | ofNat n =>
      show (-(Int.ofNat (m.succ % n))).natAbs = m.succ % n
      rw [Int.natAbs_neg]
      rfl
    | negSucc n =>
      show (-(Int.ofNat (m.succ % n.succ))).natAbs = m.succ % n.succ
      rw [Int.natAbs_neg]
      rfl

/-- The truncated remainder of a nonpositive dividend is nonpositive. -/
lemma tmod_nonpos (a b : Int) (h : a ≤ 0) : Int.tmod a b ≤ 0 := by
  cases a with
  | ofNat m =>
    cases m with
    | zero => simp
    | succ k => exact absurd (Int.ofNat_le.mp h) (Nat.not_succ_le_zero k)
  | negSucc m =>
    cases b with
    | ofNat n =>
      show -(Int.ofNat (m.succ % n)) ≤ 0
      exact neg_nonpos.mpr (Int.ofNat_nonneg _)
    | negSucc n =>
      show -(Int.ofNat (m.succ % n.succ)) ≤ 0
      exact neg_nonpos.mpr (Int.ofNat_nonneg _)

/-- Rust truncated division by a nonzero factor satisfies `divSpec`. -/
lemma tdiv_divSpec (den x : Int) (h : den ≠ 0) :
    divSpec den x (Int.tdiv x den) := by
  refine ⟨Int.tmod x den, (Int.tdiv_add_tmod x den).symm, ?_, ?_, ?_⟩
  · rw [tmod_natAbs]
    exact Nat.mod_lt _ (Int.natAbs_pos.mpr h)
  · intro hx
    exact Int.tmod_nonneg den hx
  · intro hx
    exact tmod_nonpos x den hx

/-- The quotient of the per-second multiples of a finer-or-equal unit by a
coarser-or-equal one is exact: the units are in exact integer ratio. -/
lemma unit_ratio_exact (fu tu : TimeUnit)
    (h : time_unit_multiple tu ≤ time_unit_multiple fu) :
    time_unit_multiple fu =
      Int.tdiv (time_unit_multiple fu) (time_unit_multiple tu) *
        time_unit_multiple tu := by
  cases fu <;> cases tu <;> revert h <;> decide

/-- That quotient is positive. -/
lemma unit_ratio_pos (fu tu : TimeUnit)
    (h : time_unit_multiple tu ≤ time_unit_multiple fu) :
    0 < Int.tdiv (time_unit_multiple fu) (time_unit_multiple tu) := by
  cases fu <;> cases tu <;> revert h <;> decide

/-- A multiplying rescale kernel is exact on inputs whose scaled value fits
the output width. -/
lemma unary_mul_exact (a : PrimitiveArray Int) (w : Nat) (r : Int)
    (dt : DataType) (hw : 0 < w)
    (hfit : ∀ x ∈ a.values, -(2 ^ (w - 1)) ≤ x * r ∧ x * r < 2 ^ (w - 1)) :
    unary a (fun x => wrap w (x * r)) dt =
      ⟨dt, a.values.map (fun x => x * r), a.validity⟩ := by
  have hm : a.values.map (fun x => wrap w (x * r)) = a.values.map (fun x => x * r) :=
    List.map_congr_left
      (fun x hx => wrap_eq_self w _ hw (hfit x hx).1 (hfit x hx).2)
  rw [unary, hm]

/-- A dividing rescale kernel followed by a truncating cast is exact on
inputs whose quotient fits the output width. -/
lemma unary_tdiv_wrap_exact (a : PrimitiveArray Int) (w : Nat) (den : Int)
    (dt : DataType) (hw : 0 < w)
    (hfit : ∀ x ∈ a.values,
      -(2 ^ (w - 1)) ≤ Int.tdiv x den ∧ Int.tdiv x den < 2 ^ (w - 1)) :
    unary a (fun x => wrap w (Int.tdiv x den)) dt =
      ⟨dt, a.values.map (fun x => Int.tdiv x den), a.validity⟩ := by
  have hm : a.values.map (fun x => wrap w (Int.tdiv x den)) =
      a.values.map (fun x => Int.tdiv x den) :=
    List.map_congr_left
      (fun x hx => wrap_eq_self w _ hw (hfit x hx).1 (hfit x hx).2)
  rw [unary, hm]

/-- C3 (amended): every unit-rescaling cast rescales by the exact integer
ratio between the source and target units, in integer arithmetic only —
multiplying when the TARGET unit is FINER (more ticks per second) and
dividing, with truncation TOWARD ZERO, when the target unit is coarser;
multiplications (and the final narrowing cast) wrap at the output width, so
exactness is stated for inputs whose scaled value fits.  The target logical
type is set and the validity bitmap passes through unchanged. -/
theorem time_rescaling_exact_ratio :
    (∀ a : PrimitiveArray Int,
      (∀ x ∈ a.values, -(2 ^ 31) ≤ x * 1000 ∧ x * 1000 < 2 ^ 31) →
      time32s_to_time32ms a =
        ⟨DataType.time32 TimeUnit.millisecond,
         a.values.map (fun x => x * 1000), a.validity⟩) ∧
    (∀ a : PrimitiveArray Int,
      time32ms_to_time32s a =
        ⟨DataType.time32 TimeUnit.second,
         a.values.map (fun x => Int.tdiv x 1000), a.validity⟩ ∧
      ∀ x ∈ a.values, divSpec 1000 x (Int.tdiv x 1000)) ∧
    (∀ a : PrimitiveArray Int,
      (∀ x ∈ a.values, -(2 ^ 63) ≤ x * 1000 ∧ x * 1000 < 2 ^ 63) →
      time64us_to_time64ns a =
        ⟨DataType.time64 TimeUnit.nanosecond,
         a.values.map (fun x => x * 1000), a.validity⟩) ∧
    (∀ a : PrimitiveArray Int,
      time64ns_to_time64us a =
        ⟨DataType.time64 TimeUnit.microsecond,
         a.values.map (fun x => Int.tdiv x 1000), a.validity⟩ ∧
      ∀ x ∈ a.values, divSpec 1000 x (Int.tdiv x 1000)) ∧
    (∀ a : PrimitiveArray Int,
      (∀ x ∈ a.values, -(2 ^ 31) ≤ x ∧ x < 2 ^ 31) →
      date32_to_date64 a =
        ⟨DataType.date64, a.values.map (fun x => x * 86400000), a.validity⟩) ∧
    (∀ a : PrimitiveArray Int,
      (∀ x ∈ a.values,
        -(2 ^ 31) ≤ Int.tdiv x 86400000 ∧ Int.tdiv x 86400000 < 2 ^ 31) →
      date64_to_date32 a =
        ⟨DataType.date32, a.values.map (fun x => Int.tdiv x 86400000), a.validity⟩ ∧
      ∀ x ∈ a.values, divSpec 86400000 x (Int.tdiv x 86400000)) ∧
    (∀ (a : PrimitiveArray Int) (fu tu : TimeUnit),
      time_unit_multiple fu ≤ time_unit_multiple tu →
      (∀ x ∈ a.values,
        -(2 ^ 63) ≤ x * Int.tdiv (time_unit_multiple tu) (time_unit_multiple fu) ∧
        x * Int.tdiv (time_unit_multiple tu) (time_unit_multiple fu) < 2 ^ 63) →
      time32_to_time64 a fu tu =
        ⟨DataType.time64 tu,
         a.values.map
           (fun x => x * Int.tdiv (time_unit_multiple tu) (time_unit_multiple fu)),
         a.validity⟩ ∧
      time_unit_multiple tu =
        Int.tdiv (time_unit_multiple tu) (time_unit_multiple fu) *
          time_unit_multiple fu) ∧
    (∀ (a : PrimitiveArray Int) (fu tu : TimeUnit),
      time_unit_multiple tu ≤ time_unit_multiple fu →
      (∀ x ∈ a.values,
        -(2 ^ 31) ≤
            Int.tdiv x (Int.tdiv (time_unit_multiple fu) (time_unit_multiple tu)) ∧
        Int.tdiv x (Int.tdiv (time_unit_multiple fu) (time_unit_multiple tu)) <
          2 ^ 31) →
      time64_to_time32 a fu tu =
        ⟨DataType.time32 tu,
         a.values.map
           (fun x =>
             Int.tdiv x (Int.tdiv (time_unit_multiple fu) (time_unit_multiple tu))),
         a.validity⟩ ∧
      time_unit_multiple fu =
        Int.tdiv (time_unit_multiple fu) (time_unit_multiple tu) *
          time_unit_multiple tu ∧
      ∀ x ∈ a.values,
        divSpec (Int.tdiv (time_unit_multiple fu) (time_unit_multiple tu)) x
          (Int.tdiv x (Int.tdiv (time_unit_multiple fu) (time_unit_multiple tu)))) ∧
    (∀ (a : PrimitiveArray Int) (fu tu : TimeUnit) (tz : Option String),
      (time_unit_multiple tu ≤ time_unit_multiple fu →
        timestamp_to_timestamp a fu tu tz =
          ⟨DataType.timestamp tu tz,
           a.values.map
             (fun x =>
               Int.tdiv x (Int.tdiv (time_unit_multiple fu) (time_unit_multiple tu))),
           a.validity⟩ ∧
        time_unit_multiple fu =
          Int.tdiv (time_unit_multiple fu) (time_unit_multiple tu) *
            time_unit_multiple tu ∧
        ∀ x ∈ a.values,
          divSpec (Int.tdiv (time_unit_multiple fu) (time_unit_multiple tu)) x
            (Int.tdiv x
              (Int.tdiv (time_unit_multiple fu) (time_unit_multiple tu)))) ∧
      (time_unit_multiple fu < time_unit_multiple tu →
        (∀ x ∈ a.values,
          -(2 ^ 63) ≤
              x * Int.tdiv (time_unit_multiple tu) (time_unit_multiple fu) ∧
          x * Int.tdiv (time_unit_multiple tu) (time_unit_multiple fu) < 2 ^ 63) →
        timestamp_to_timestamp a fu tu tz =
          ⟨DataType.timestamp tu tz,
           a.values.map
             (fun x =>
               x * Int.tdiv (time_unit_multiple tu) (time_unit_multiple fu)),
           a.validity⟩ ∧
        time_unit_multiple tu =
          Int.tdiv (time_unit_multiple tu) (time_unit_multiple fu) *
            time_unit_multiple fu)) := by
  refine ⟨?_, ?_, ?_, ?_, ?_, ?_, ?_, ?_, ?_⟩
  · intro a h
    exact unary_mul_exact a 32 1000 _ (by norm_num) h
  · intro a
    exact ⟨rfl, fun x _ => tdiv_divSpec 1000 x (by decide)⟩
  · intro a h
    exact unary_mul_exact a 64 1000 _ (by norm_num) h
  · intro a
    exact ⟨rfl, fun x _ => tdiv_divSpec 1000 x (by decide)⟩
  · intro a h
    apply unary_mul_exact a 64 86400000 _ (by norm_num)
    intro x hx
    have hb := h x hx
    constructor <;> omega
  · intro a h
    exact ⟨unary_tdiv_wrap_exact a 32 86400000 _ (by norm_num) h,
      fun x _ => tdiv_divSpec 86400000 x (by decide)⟩
  · intro a fu tu h hfit
    exact ⟨unary_mul_exact a 64 _ _ (by norm_num) hfit, unit_ratio_exact tu fu h⟩
  · intro a fu tu h hfit
    exact ⟨unary_tdiv_wrap_exact a 32 _ _ (by norm_num) hfit,
      unit_ratio_exact fu tu h,
      fun x _ => tdiv_divSpec _ x (unit_ratio_pos fu tu h).ne'⟩
  · intro a fu tu tz
    constructor
    · intro h
      simp only [timestamp_to_timestamp]
      rw [if_pos h]
      exact ⟨rfl, unit_ratio_exact fu tu h,
        fun x _ => tdiv_divSpec _ x (unit_ratio_pos fu tu h).ne'⟩
    · intro h hfit
      simp only [timestamp_to_timestamp]
      rw [if_neg (not_le.mpr h)]
      exact ⟨unary_mul_exact a 64 _ _ (by norm_num) hfit,
        unit_ratio_exact tu fu (le_of_lt h)⟩

/-- C3 witness: seconds→milliseconds on `[5]` multiplies exactly, and the
truncated division of −1500 ms by the unit quotient 1000 leaves a negative
remainder smaller than 1000 in magnitude. -/
theorem time_rescaling_exact_ratio_witness :
    time32s_to_time32ms ⟨DataType.time32 TimeUnit.second, [5], some [true]⟩ =
      ⟨DataType.time32 TimeUnit.millisecond, [5000], some [true]⟩ ∧
    divSpec 1000 (-1500) (Int.tdiv (-1500) 1000) :=
  ⟨time_rescaling_exact_ratio.1 ⟨DataType.time32 TimeUnit.second, [5], some [true]⟩
      (by decide),
   (time_rescaling_exact_ratio.2.1
      ⟨DataType.time32 TimeUnit.millisecond, [-1500], none⟩).2 (-1500) (by decide)⟩

/-- Both components of `tivLoop` have one entry per index. -/
lemma tivLoop_lengths (offsets : List Int) :
    ∀ (idxs : List Nat) (len0 : Int),
      (tivLoop offsets idxs len0).1.length = idxs.length ∧
      (tivLoop offsets idxs len0).2.length = idxs.length := by
  intro idxs
  induction idxs with
  | nil => intro len0; simp [tivLoop]
  | cons idx rest ih =>
    intro len0
    cases hh : offsets[idx + 1]? with
    | some next =>
      have h := ih (len0 + (next - offsets.getD idx 0))
      simp only [tivLoop, hh, List.length_cons]
      exact ⟨by rw [h.1], by rw [h.2]⟩
    | none =>
      have h := ih len0
      simp only [tivLoop, hh, List.length_cons]
      exact ⟨by rw [h.1], by rw [h.2]⟩

/-- At an out-of-range position the loop records start 0 and does not
advance the running length. -/
lemma tivLoop_oob (offsets : List Int) :
    ∀ (idxs : List Nat) (len0 : Int) (i : Nat),
      i < idxs.length → offsets[idxs.getD i 0 + 1]? = none →
      (tivLoop offsets idxs len0).1.getD i 0 = 0 ∧
      (len0 :: (tivLoop offsets idxs len0).2).getD (i + 1) 0 =
        (len0 :: (tivLoop offsets idxs len0).2).getD i 0 := by
  intro idxs
  induction idxs with
  | nil => intro len0 i h; simp at h
  | cons idx rest ih =>
    intro len0 i hi hoob
    cases i with
    | zero =>
      simp only [List.getD_cons_zero] at hoob
      simp [tivLoop, hoob, List.getD]
    | succ j =>
      simp only [List.getD_cons_succ] at hoob
      have hj : j < rest.length := by simpa using hi
      cases hh : offsets[idx + 1]? with
      | some next =>
        have h := ih (len0 + (next - offsets.getD idx 0)) j hj hoob
        simp only [tivLoop, hh]
        exact ⟨by simpa [List.getD_cons_succ] using h.1,
          by simpa [List.getD_cons_succ] using h.2⟩
      | none =>
        have h := ih len0 j hj hoob
        simp only [tivLoop, hh]
        exact ⟨by simpa [List.getD_cons_succ] using h.1,
          by simpa [List.getD_cons_succ] using h.2⟩

/-- `getD` through `tail`. -/
lemma listGetD_tail {α : Type} (l : List α) (i : Nat) (d : α) :
    l.tail.getD i d = l.getD (i + 1) d := by
  cases l with
  | nil => simp [List.getD]
  | cons a t => simp [List.getD_cons_succ]

/-- C8: in `take_indices_validity` the out-of-range tolerance applies at
EVERY index position, null or not: an index payload whose `index + 1` is
outside the source offsets slice yields a zero-width slot (the output
offset does not advance and the copied byte range is empty, so no
out-of-bounds source access happens), and since the output validity is the
index validity cloned unchanged, such a slot at a valid index position
stays marked valid. -/
theorem take_oob_index_zero_width
    (offsets : List Int) (values : List Nat) (indices : PrimitiveArray Nat)
    (i : Nat) (hi : i < indices.values.length)
    (hoob : offsets[indices.values.getD i 0 + 1]? = none) :
    ((take_indices_validity offsets values indices).1).getD (i + 1) 0 =
      ((take_indices_validity offsets values indices).1).getD i 0 ∧
    (take_values_slices (tivLoop offsets indices.values 0).1
        ((take_indices_validity offsets values indices).1) values).getD i [] =
      [] ∧
    (take_indices_validity offsets values indices).2.2 = indices.validity := by
  obtain ⟨hstart, hlen⟩ := tivLoop_oob offsets indices.values 0 i hi hoob
  have hlens := tivLoop_lengths offsets indices.values 0
  have houts : (take_indices_validity offsets values indices).1 =
      0 :: (tivLoop offsets indices.values 0).2 := rfl
  refine ⟨by rw [houts]; exact hlen, ?_, rfl⟩
  rw [houts, take_values_slices,
    listGetD_zipWith _ (tivLoop offsets indices.values 0).1
      (List.zipWith Prod.mk (0 :: (tivLoop offsets indices.values 0).2)
        (0 :: (tivLoop offsets indices.values 0).2).tail) i 0 (0, 0) []
      (by rw [hlens.1]; exact hi)
      (by
        rw [List.length_zipWith]
        simp only [List.length_cons, List.tail_cons, hlens.2]
        omega),
    hstart,
    listGetD_zipWith Prod.mk (0 :: (tivLoop offsets indices.values 0).2)
      (0 :: (tivLoop offsets indices.values 0).2).tail i 0 0 (0, 0)
      (by simp only [List.length_cons]; omega)
      (by simp only [List.tail_cons, hlens.2]; exact hi),
    listGetD_tail]
  have hzero : (0 :: (tivLoop offsets indices.values 0).2).getD (i + 1) 0 -
      (0 :: (tivLoop offsets indices.values 0).2).getD i 0 = 0 := by
    rw [hlen]
    ring
  dsimp only
  rw [hzero]
  simp [sliceInt]

/-- C1 (amended): in `take_indices_validity` the output validity is the
index array's validity cloned unchanged, so a null index always yields a
slot marked invalid; an index payload whose `index + 1` is out of range of
the source offsets is treated as an empty (zero-width) slot rather than
causing an out-of-bounds access.  An in-range payload at a null position,
however, still advances the output offset and copies its source range —
harmlessly, since the slot is invalid. -/
theorem take_null_index_invalid_slot
    (offsets : List Int) (values : List Nat) (indices : PrimitiveArray Nat)
    (i : Nat) (hi : i < indices.values.length)
    (hnull : bitAt indices.validity i = false) :
    bitAt (take_indices_validity offsets values indices).2.2 i = false ∧
    (take_indices_validity offsets values indices).2.2 = indices.validity ∧
    (offsets[indices.values.getD i 0 + 1]? = none →
      ((take_indices_validity offsets values indices).1).getD (i + 1) 0 =
        ((take_indices_validity offsets values indices).1).getD i 0) :=
  ⟨hnull, rfl, fun hoob => (tivLoop_oob offsets indices.values 0 i hi hoob).2⟩

/-- C1 counterexample: a null index whose payload is IN range: source
offsets `[0, 2]`, bytes `[7, 9]`, one index `0` at a null position.  The
kernel still consults the source — the output offset advances from 0 to 2
and both source bytes are copied — contradicting the claimed "zero-width
output slot without consulting the source at all" for null indices. -/
theorem take_null_index_copies_bytes :
    take_indices_validity [0, 2] [7, 9] ⟨DataType.uint32, [0], some [false]⟩ =
      ([0, 2], [7, 9], some [false]) ∧ (2 : Int) ≠ 0 := by
  constructor
  · rfl
  · decide

/-- C1 witness: a null position with an out-of-range payload (index 5 into
a 1-element source) produces an invalid slot, the validity is the cloned
index validity, and the output offset does not advance. -/
theorem take_null_index_invalid_slot_witness :
    bitAt (take_indices_validity [0, 2] [7, 9]
      ⟨DataType.uint32, [5], some [false]⟩).2.2 0 = false ∧
    (take_indices_validity [0, 2] [7, 9]
      ⟨DataType.uint32, [5], some [false]⟩).2.2 = some [false] ∧
    (([0, 2] : List Int)[([5] : List Nat).getD 0 0 + 1]? = none →
      ((take_indices_validity [0, 2] [7, 9]
        ⟨DataType.uint32, [5], some [false]⟩).1).getD 1 0 =
        ((take_indices_validity [0, 2] [7, 9]
          ⟨DataType.uint32, [5], some [false]⟩).1).getD 0 0) :=
  take_null_index_invalid_slot [0, 2] [7, 9]
    ⟨DataType.uint32, [5], some [false]⟩ 0 (by decide) (by decide)

/-- C8 witness: an out-of-range index (5) at a VALID position: the output
offset does not advance, the copied range is empty, and the slot stays
marked valid because the index validity is cloned unchanged. -/
theorem take_oob_index_zero_width_witness :
    ((take_indices_validity [0, 2] [7, 9]
        ⟨DataType.uint32, [5], some [true]⟩).1).getD 1 0 =
      ((take_indices_validity [0, 2] [7, 9]
        ⟨DataType.uint32, [5], some [true]⟩).1).getD 0 0 ∧
    (take_values_slices (tivLoop [0, 2] [5] 0).1
        ((take_indices_validity [0, 2] [7, 9]
          ⟨DataType.uint32, [5], some [true]⟩).1) [7, 9]).getD 0 [] = [] ∧
    (take_indices_validity [0, 2] [7, 9]
      ⟨DataType.uint32, [5], some [true]⟩).2.2 = some [true] :=
  take_oob_index_zero_width [0, 2] [7, 9]
    ⟨DataType.uint32, [5], some [true]⟩ 0 (by decide) (by decide)
